import Mathlib

/-!
Shallow embedding of the `http-payload` Go package: the pipe combinators
(`PipeScanner.Scan`, `PipePrinter.Print`), the header printer
(`HeaderPrinter.Set`), the cookie printer (`CookiePrinter.Set`,
`CookiePrinter.SetField`), the cookie scanner (`CookieScanner.Get`),
and — modelled from the spec, since `internal/structende` is not among the
sources — the field-plan builder, the decode driver, the encode driver and
the sequence conversion rule of the default conversion policy.
-/

namespace HttpPayload

/-- A dynamically typed Go value (`any`), restricted to the shapes the
claims exercise: strings, machine integers and booleans. -/
inductive GoValue where
  | VStr (s : String)
  | VInt (n : Int)
  | VBool (b : Bool)
  deriving DecidableEq, Repr

/-- Go `fmt.Sprintf("%s", v)`: a string formats to itself; a value of any
other type formats to the `%!s(type=value)` error form. -/
def goSprintfS (v : GoValue) : String :=
  match v with
  | .VStr s => s
  | .VInt n => "%!s(int=" ++ toString n ++ ")"
  | .VBool b => "%!s(bool=" ++ (if b then "true" else "false") ++ ")"

/-- Go `textproto` validity of a header-key byte: ASCII letters, digits,
and the token specials `!#$%&*+-.^_|~`, the apostrophe and the backtick
(given by code point to keep the development plain ASCII). -/
def validHeaderFieldChar (c : Char) : Bool :=
  c.isAlphanum ||
    [33, 35, 36, 37, 38, 39, 42, 43, 45, 46, 94, 95, 96, 124, 126].contains c.toNat

/-- Case folding pass of Go `textproto.CanonicalMIMEHeaderKey`: uppercase
the first letter and every letter following a hyphen, lowercase the rest.
The boolean argument tells whether the previous character was a hyphen
(or we are at the start). -/
def canonicalKeyAux : Bool → List Char → List Char
  | _, [] => []
  | upper, c :: rest =>
    let d := if upper then c.toUpper else c.toLower
    d :: canonicalKeyAux (d == '-') rest

/-- Go `textproto.CanonicalMIMEHeaderKey`: canonicalise a header key by
case folding, unless the key holds a byte that is not a valid header-field
byte, in which case it is returned unchanged. -/
def canonicalMIMEHeaderKey (s : String) : String :=
  if s.toList.all validHeaderFieldChar then
    (canonicalKeyAux true s.toList).asString
  else
    s

/-- An HTTP header (`http.Header`), as an association list from canonical
keys to values. -/
def Header := List (String × String)

instance : DecidableEq Header := by
  unfold Header
  infer_instance

/-- Go `http.Header.Set`: replace the entry of the canonicalised key by the
single given value. -/
def headerSet (h : Header) (key value : String) : Header :=
  let ck := canonicalMIMEHeaderKey key
  (ck, value) :: List.filter (fun p => p.1 ≠ ck) h

/-- Go `http.Header.Get`: look up the first value of the canonicalised key,
`none` for a missing key. -/
def headerGet (h : Header) (key : String) : Option String :=
  (List.find? (fun p => p.1 = canonicalMIMEHeaderKey key) h).map (fun p => p.2)

/-- Go `http.SameSite` constants (`iota + 1`); the zero value `0` is the
state of an unset `http.SameSite` variable. -/
def SameSiteDefaultMode : Nat := 1

/-- Go `http.SameSiteLaxMode`. -/
def SameSiteLaxMode : Nat := 2

/-- Go `http.SameSiteStrictMode`. -/
def SameSiteStrictMode : Nat := 3

/-- Go `http.SameSiteNoneMode`. -/
def SameSiteNoneMode : Nat := 4

/-- The fields of a Go `http.Cookie` that the repository sets. -/
structure Cookie where
  Name : String
  Value : String
  Path : String
  Secure : Bool
  SameSite : Nat
  RawExpires : String
  deriving DecidableEq, Repr

/-- The observable state of an `http.ResponseWriter`: the header map, the
list of cookies emitted through `http.SetCookie`, the body bytes and the
status code. -/
structure ResponseWriter where
  header : Header
  cookies : List Cookie
  body : String
  status : Int
  deriving DecidableEq

/-- A Go struct tag, as an association list of tag keys to tag values;
`tagLookup` is `reflect.StructTag.Lookup`. -/
def tagLookup (tag : List (String × String)) (key : String) : Option String :=
  (List.find? (fun p => p.1 = key) tag).map (fun p => p.2)

/-- The part of a Go `reflect.StructField` the printers consult: the field
name and its tag. -/
structure StructField where
  fname : String
  tag : List (String × String)
  deriving DecidableEq, Repr

/-- `HeaderPrinter.Set` (printer.go): for the reserved key `"Status"` with
an `int` value it calls `w.WriteHeader(code)`; for `"Status"` with a value
of any other type it panics (modelled as `.error`); for every other key it
sets the header `key` to `fmt.Sprintf("%s", value)`. -/
def HeaderPrinter.Set (w : ResponseWriter) (key : String) (value : GoValue) :
    Except String ResponseWriter :=
  if key = "Status" then
    match value with
    | .VInt code => .ok { w with status := code }
    | _ => .error "expected int for Status header"
  else
    .ok { w with header := headerSet w.header key (goSprintfS value) }

/-- `CookiePrinter.Set` (printer.go): the minimal sink operation is a
no-op. -/
def CookiePrinter.Set (w : ResponseWriter) (_key : String) (_value : GoValue) :
    ResponseWriter :=
  w

/-- `CookiePrinter.SetField` (printer.go): build an `http.Cookie` from the
field tag — path from `cookie-path` defaulting to `"/"`, secure true
exactly when `cookie-secure` is `"true"`, same-site from `cookie-samesite`
(`lax`, `strict`, `none`, anything else the default mode; unset when the
tag is absent), raw expiry from `cookie-expires` defaulting to `""` — and
emit it through `http.SetCookie`. -/
def CookiePrinter.SetField (w : ResponseWriter) (key : String) (value : GoValue)
    (field : StructField) : ResponseWriter :=
  let path :=
    match tagLookup field.tag "cookie-path" with
    | some p => p
    | none => "/"
  let secure :=
    match tagLookup field.tag "cookie-secure" with
    | some s => s == "true"
    | none => false
  let samesite :=
    match tagLookup field.tag "cookie-samesite" with
    | some s =>
      match s with
      | "lax" => SameSiteLaxMode
      | "strict" => SameSiteStrictMode
      | "none" => SameSiteNoneMode
      | _ => SameSiteDefaultMode
    | none => 0
  let expires :=
    match tagLookup field.tag "cookie-expires" with
    | some e => e
    | none => ""
  let cookieval := goSprintfS value
  { w with
      cookies := w.cookies ++
        [{ Name := key, Value := cookieval, Path := path, Secure := secure,
           SameSite := samesite, RawExpires := expires }] }

/-- `CookieScanner.Get` (scanner.go): return the `Value` of the first
cookie whose `Name` equals the key, `none` (Go `nil`) when no cookie
matches. -/
def CookieScanner.Get (cookies : List Cookie) (key : String) : Option String :=
  match cookies with
  | [] => none
  | c :: rest => if c.Name = key then some c.Value else CookieScanner.Get rest key

/-- The common loop of `PipeScanner.Scan` and `PipePrinter.Print`: run the
stages in order against the threaded state, stopping at the first error. -/
def pipeRun {α ε : Type} : List (α → Except ε α) → α → Except ε α
  | [], v => .ok v
  | stage :: rest, v =>
    match stage v with
    | .error e => .error e
    | .ok v2 => pipeRun rest v2

/-- `PipeScanner.Scan` (scanner.go): run the scanners in sequence against
the same record, short-circuiting on the first error. -/
def PipeScanner.Scan {α ε : Type} (scanners : List (α → Except ε α)) (v : α) :
    Except ε α :=
  pipeRun scanners v

/-- `PipePrinter.Print` (printer.go): run the printers in sequence against
the same state, short-circuiting on the first error. -/
def PipePrinter.Print {α ε : Type} (printers : List (α → Except ε α)) (v : α) :
    Except ε α :=
  pipeRun printers v

/-- Modelled from the spec: the skip sentinel marker of §4.1 — a tag equal
to it excludes the field from the namespace's plan (the code of
`internal/structende` is not among the sources). -/
def skipSentinel : String := "-"

/-- Modelled from the spec: a field descriptor of the field plan (§3) — the
field's name and the namespace-specific source key (the code of
`internal/structende` is not among the sources). -/
structure FieldDesc where
  name : String
  sourceKey : String
  deriving DecidableEq, Repr

/-- Modelled from the spec: a field of a record type, as seen by the plan
builder — its name and its tags, one per namespace. -/
structure RecField where
  name : String
  tags : List (String × String)
  deriving DecidableEq, Repr

/-- Modelled from the spec: the field-plan builder (§4.1) — for each field
read the tag of the namespace; if it is absent or equals the skip sentinel
the field is excluded, otherwise the tag value becomes the source key (the
code of `internal/structende` is not among the sources). -/
def buildPlan (fields : List RecField) (ns : String) : List FieldDesc :=
  List.filterMap
    (fun f =>
      match tagLookup f.tags ns with
      | none => none
      | some k => if k = skipSentinel then none else some ⟨f.name, k⟩)
    fields

/-- Modelled from the spec: the decode error of §4.3, identifying the field
name, the source key and the underlying cause (the code of
`internal/structende` is not among the sources). -/
structure DecodeErr where
  fieldName : String
  sourceKey : String
  cause : String
  deriving DecidableEq, Repr

/-- A record instance, as a total map from field names to values. -/
def Rec (α : Type) := String → α

/-- Assignment into one field of a record. -/
def recAssign {α : Type} (r : Rec α) (name : String) (v : α) : Rec α :=
  fun m => if m = name then v else r m

/-- Modelled from the spec: the decode driver (§4.3) — for each descriptor
in plan order resolve the raw value via the source (`absent` leaves the
field untouched and continues), convert it, and on success assign into the
record; on conversion failure stop immediately with an error identifying
the field name, the source key and the cause, keeping the assignments made
so far (the code of `internal/structende` is not among the sources). -/
def decode {ρ α : Type} (get : String → Option ρ)
    (conv : FieldDesc → ρ → Except String α) :
    List FieldDesc → Rec α → Option DecodeErr × Rec α
  | [], r => (none, r)
  | d :: rest, r =>
    match get d.sourceKey with
    | none => decode get conv rest r
    | some raw =>
      match conv d raw with
      | .error cause => (some ⟨d.name, d.sourceKey, cause⟩, r)
      | .ok v => decode get conv rest (recAssign r d.name v)

/-- Modelled from the spec: the encode driver (§4.4), observed as the
ordered list of sink invocations — for each descriptor in plan order the
sink is called with the source key, the field's formatted value and the
descriptor (the code of `internal/structende` is not among the sources). -/
def encodeCalls {α : Type} (plan : List FieldDesc) (r : Rec α) :
    List (String × α × FieldDesc) :=
  List.map (fun d => (d.sourceKey, r d.name, d)) plan

/-- Modelled from the spec: the sequence rule of the default conversion
policy (§4.2) — raw text is split on the comma delimiter into an ordered
list of substrings, and an empty raw value yields an empty sequence (the
code of `internal/structende` is not among the sources). -/
def convertSequence (raw : String) : List String :=
  if raw = "" then [] else List.map List.asString (raw.toList.splitOn ',')

/-- Modelled from the spec: sequence formatting of the encode driver
(§4.4) — formatted elements are re-joined with the comma delimiter (the
code of `internal/structende` is not among the sources). -/
def encodeSequence (elems : List String) : String :=
  (List.intercalate [','] (List.map String.toList elems)).asString

/-- A cookie with the given name and value and zero-valued attributes, used
for concrete instances. -/
def mkCookie (n v : String) : Cookie :=
  { Name := n, Value := v, Path := "", Secure := false, SameSite := 0, RawExpires := "" }

/-- A response writer with everything empty, used for concrete instances. -/
def emptyWriter : ResponseWriter :=
  { header := [], cookies := [], body := "", status := 200 }

/-- A stage that succeeds, incrementing its state — a concrete instance. -/
def incStage : Nat → Except String Nat :=
  fun x => .ok (x + 1)

/-- A stage that always fails — a concrete instance. -/
def boomStage : Nat → Except String Nat :=
  fun _ => .error "boom"

/-- A record whose every field holds the empty string — a concrete
instance of a zero-valued record. -/
def zeroRec : Rec String :=
  fun _ => ""

/-- A concrete source: key `p` holds `v`, key `q` holds `bad`, everything
else is absent. -/
def getEx : String → Option String :=
  fun k => if k = "p" then some "v" else if k = "q" then some "bad" else none

/-- A concrete conversion: the raw value `bad` fails with cause `boom`,
everything else converts to itself. -/
def convEx : FieldDesc → String → Except String String :=
  fun _ raw => if raw = "bad" then .error "boom" else .ok raw

/-- Concrete record fields: `A` mapped to query key `a`, `B` untagged, `C`
tagged with the skip sentinel. -/
def fieldsEx : List RecField :=
  [{ name := "A", tags := [("query", "a")] }, { name := "B", tags := [] },
   { name := "C", tags := [("query", "-")] }]

/-- `CookieScanner.Get` returns `none` on a list with no cookie of the
given name. -/
theorem cookieScanner_get_none (l : List Cookie) (key : String)
    (h : ∀ c ∈ l, c.Name ≠ key) : CookieScanner.Get l key = none := by
  induction l with
  | nil => rfl
  | cons c rest ih =>
    have hc : c.Name ≠ key := h c (List.mem_cons_self c rest)
    simp only [CookieScanner.Get, if_neg hc]
    exact ih fun d hd => h d (List.mem_cons_of_mem c hd)

/-- `CookieScanner.Get` returns the value of the head of the matching
suffix when no earlier cookie matches. -/
theorem cookieScanner_get_append (pre : List Cookie) (c : Cookie) (post : List Cookie)
    (key : String) (hpre : ∀ d ∈ pre, d.Name ≠ key) (hc : c.Name = key) :
    CookieScanner.Get (pre ++ c :: post) key = some c.Value := by
  induction pre with
  | nil => simp only [List.nil_append, CookieScanner.Get, if_pos hc]
  | cons d rest ih =>
    have hd : d.Name ≠ key := hpre d (List.mem_cons_self d rest)
    simp only [List.cons_append, CookieScanner.Get, if_neg hd]
    exact ih fun e he => hpre e (List.mem_cons_of_mem d he)

/-- C9: `CookieScanner.Get` returns the `Value` of the first cookie in the
list whose `Name` equals the key, and `none` when no cookie in the list has
that name. -/
theorem claim_cookieScanner_get_first (cookies : List Cookie) (key : String) :
    ((∀ c ∈ cookies, c.Name ≠ key) → CookieScanner.Get cookies key = none) ∧
    (∀ pre c post, cookies = pre ++ c :: post → (∀ d ∈ pre, d.Name ≠ key) →
      c.Name = key → CookieScanner.Get cookies key = some c.Value) := by
  constructor
  · exact cookieScanner_get_none cookies key
  · intro pre c post hdec hpre hc
    rw [hdec]
    exact cookieScanner_get_append pre c post key hpre hc

/-- Witness for C9: on a three-cookie list with two cookies named `token`,
`Get` returns the value of the first of them, and a missing name yields
`none`. -/
theorem claim_cookieScanner_get_first_witness :
    CookieScanner.Get [mkCookie "a" "1", mkCookie "token" "t", mkCookie "token" "u"]
        "token" = some "t" ∧
    CookieScanner.Get [mkCookie "a" "1"] "missing" = none := by
  constructor
  · exact (claim_cookieScanner_get_first
      [mkCookie "a" "1", mkCookie "token" "t", mkCookie "token" "u"] "token").2
      [mkCookie "a" "1"] (mkCookie "token" "t") [mkCookie "token" "u"]
      rfl (by decide) (by decide)
  · exact (claim_cookieScanner_get_first [mkCookie "a" "1"] "missing").1 (by decide)

/-- C8: the cookie sink's minimal `Set` operation is a no-op — it returns
the response writer completely unchanged (headers, cookies, body and
status); cookies are emitted only through `SetField`. -/
theorem claim_cookiePrinter_set_noop (w : ResponseWriter) (key : String) (value : GoValue) :
    CookiePrinter.Set w key value = w :=
  rfl

/-- C6: `CookiePrinter.SetField` emits exactly one cookie; its `Path` is
the `cookie-path` tag when present and `/` otherwise, its `Secure` flag is
true iff the `cookie-secure` tag is present and equals `true`, and its
`RawExpires` is the `cookie-expires` tag passed through uninterpreted when
present and empty otherwise. -/
theorem claim_cookiePrinter_setField_attrs (w : ResponseWriter) (key : String)
    (value : GoValue) (field : StructField) :
    ∃ c : Cookie, (CookiePrinter.SetField w key value field).cookies = w.cookies ++ [c] ∧
      c.Path = (tagLookup field.tag "cookie-path").getD "/" ∧
      (c.Secure = true ↔ tagLookup field.tag "cookie-secure" = some "true") ∧
      c.RawExpires = (tagLookup field.tag "cookie-expires").getD "" := by
  unfold CookiePrinter.SetField
  refine ⟨_, rfl, ?_, ?_, ?_⟩
  · cases h : tagLookup field.tag "cookie-path" <;> simp [h]
  · cases h : tagLookup field.tag "cookie-secure" <;> simp [h]
  · cases h : tagLookup field.tag "cookie-expires" <;> simp [h]

/-- C7: when the `cookie-samesite` tag is present, the emitted cookie's
same-site mode is Lax for `lax`, Strict for `strict`, None for `none`, and
the default same-site mode for any other tag value. -/
theorem claim_cookiePrinter_setField_samesite (w : ResponseWriter) (key : String)
    (value : GoValue) (field : StructField) (s : String)
    (h : tagLookup field.tag "cookie-samesite" = some s) :
    ∃ c : Cookie, (CookiePrinter.SetField w key value field).cookies = w.cookies ++ [c] ∧
      c.SameSite =
        (if s = "lax" then SameSiteLaxMode else
          if s = "strict" then SameSiteStrictMode else
            if s = "none" then SameSiteNoneMode else SameSiteDefaultMode) := by
  unfold CookiePrinter.SetField
  refine ⟨_, rfl, ?_⟩
  simp only [h]
  split <;> simp_all

/-- Witness for C7: a field tagged `cookie-samesite:strict` yields a cookie
in strict same-site mode. -/
theorem claim_cookiePrinter_setField_samesite_witness :
    ∃ c : Cookie, (CookiePrinter.SetField emptyWriter "k" (.VStr "v")
        { fname := "F", tag := [("cookie-samesite", "strict")] }).cookies =
      emptyWriter.cookies ++ [c] ∧
      c.SameSite =
        (if "strict" = "lax" then SameSiteLaxMode else
          if "strict" = "strict" then SameSiteStrictMode else
            if "strict" = "none" then SameSiteNoneMode else SameSiteDefaultMode) :=
  claim_cookiePrinter_setField_samesite emptyWriter "k" (.VStr "v")
    { fname := "F", tag := [("cookie-samesite", "strict")] } "strict" (by decide)

/-- `headerGet` after `headerSet` of the same key returns the set value. -/
theorem headerGet_headerSet (h : Header) (key value : String) :
    headerGet (headerSet h key value) key = some value := by
  unfold headerGet headerSet
  simp

/-- C2: `HeaderPrinter.Set` with key `Status` and an `int` value finalizes
the status line with that code and emits no header at all (in particular no
header named `Status`); with any other key it sets the header named by the
key to the value's textual form, leaving the status untouched. -/
theorem claim_headerPrinter_set_status (w : ResponseWriter) (key : String)
    (value : GoValue) (n : Int) :
    (∃ w2, HeaderPrinter.Set w "Status" (.VInt n) = .ok w2 ∧
      w2.status = n ∧ w2.header = w.header ∧ w2.cookies = w.cookies ∧ w2.body = w.body) ∧
    (key ≠ "Status" →
      ∃ w2, HeaderPrinter.Set w key value = .ok w2 ∧
        headerGet w2.header key = some (goSprintfS value) ∧
        w2.status = w.status ∧ w2.cookies = w.cookies ∧ w2.body = w.body) := by
  constructor
  · exact ⟨{ w with status := n }, rfl, rfl, rfl, rfl, rfl⟩
  · intro hk
    refine ⟨{ w with header := headerSet w.header key (goSprintfS value) }, ?_, ?_, rfl, rfl, rfl⟩
    · unfold HeaderPrinter.Set
      rw [if_neg hk]
    · exact headerGet_headerSet w.header key (goSprintfS value)

/-- Witness for C2: writing status 404 via the `Status` key, and setting
header `X-Test` for a non-reserved key. -/
theorem claim_headerPrinter_set_status_witness :
    (∃ w2, HeaderPrinter.Set emptyWriter "Status" (.VInt 404) = .ok w2 ∧
      w2.status = 404 ∧ w2.header = emptyWriter.header ∧
      w2.cookies = emptyWriter.cookies ∧ w2.body = emptyWriter.body) ∧
    (∃ w2, HeaderPrinter.Set emptyWriter "X-Test" (.VStr "en") = .ok w2 ∧
      headerGet w2.header "X-Test" = some (goSprintfS (.VStr "en")) ∧
      w2.status = emptyWriter.status ∧ w2.cookies = emptyWriter.cookies ∧
      w2.body = emptyWriter.body) := by
  have h := claim_headerPrinter_set_status emptyWriter "X-Test" (.VStr "en") 404
  exact ⟨h.1, h.2 (by decide)⟩

/-- C10: `HeaderPrinter.Set` panics exactly when the key is `Status` and
the value is not an `int`; for `Status` with an `int` value and for every
other key it succeeds. -/
theorem claim_headerPrinter_set_panic (w : ResponseWriter) (key : String)
    (value : GoValue) (n : Int) :
    ((∀ m : Int, value ≠ .VInt m) →
      HeaderPrinter.Set w "Status" value = .error "expected int for Status header") ∧
    (∃ w2, HeaderPrinter.Set w "Status" (.VInt n) = .ok w2) ∧
    (key ≠ "Status" → ∃ w2, HeaderPrinter.Set w key value = .ok w2) := by
  refine ⟨?_, ⟨{ w with status := n }, rfl⟩, ?_⟩
  · intro hv
    cases value with
    | VInt m => exact absurd rfl (hv m)
    | VStr s => rfl
    | VBool b => rfl
  · intro hk
    refine ⟨{ w with header := headerSet w.header key (goSprintfS value) }, ?_⟩
    unfold HeaderPrinter.Set
    rw [if_neg hk]

/-- Witness for C10: a string value for `Status` panics, an `int` value
succeeds, and a non-reserved key with a string value succeeds. -/
theorem claim_headerPrinter_set_panic_witness :
    HeaderPrinter.Set emptyWriter "Status" (.VStr "oops") =
      .error "expected int for Status header" ∧
    (∃ w2, HeaderPrinter.Set emptyWriter "Status" (.VInt 200) = .ok w2) ∧
    (∃ w2, HeaderPrinter.Set emptyWriter "X-Test" (.VStr "oops") = .ok w2) := by
  have h1 := claim_headerPrinter_set_panic emptyWriter "X-Test" (.VStr "oops") 200
  have h2 := claim_headerPrinter_set_panic emptyWriter "Status" (.VStr "oops") 200
  exact ⟨h2.1 (fun m hm => GoValue.noConfusion hm), h1.2.1, h1.2.2 (by decide)⟩

/-- C3: decoding the empty string yields the empty sequence, decoding
`a,b,c` yields the ordered sequence `["a", "b", "c"]`, re-encoding it
reproduces `a,b,c` exactly, and in general re-encoding any decoded raw
value reproduces it exactly. -/
theorem claim_sequence_roundtrip :
    convertSequence "" = [] ∧
    convertSequence "a,b,c" = ["a", "b", "c"] ∧
    encodeSequence (convertSequence "a,b,c") = "a,b,c" ∧
    ∀ raw : String, encodeSequence (convertSequence raw) = raw := by
  refine ⟨rfl, by decide, by decide, ?_⟩
  intro raw
  by_cases hr : raw = ""
  · subst hr
    rfl
  · unfold convertSequence encodeSequence
    rw [if_neg hr, List.map_map]
    have hcomp : String.toList ∘ List.asString = id := funext List.toList_asString
    rw [hcomp, List.map_id, List.intercalate_splitOn]
    exact String.asString_toList raw

/-- Running `pipeRun` on an appended list first runs the prefix; when the
prefix succeeds, the run continues on the rest from the reached state. -/
theorem pipeRun_append_ok {α ε : Type} (pre rest : List (α → Except ε α))
    (v v2 : α) (h : pipeRun pre v = .ok v2) :
    pipeRun (pre ++ rest) v = pipeRun rest v2 := by
  induction pre generalizing v with
  | nil =>
    cases h
    rfl
  | cons s l ih =>
    simp only [pipeRun, List.cons_append] at h ⊢
    cases hs : s v with
    | error e => rw [hs] at h; cases h
    | ok v3 => rw [hs] at h; exact ih v3 h

/-- When every stage succeeds on every state, `pipeRun` succeeds. -/
theorem pipeRun_all_ok {α ε : Type} (stages : List (α → Except ε α)) (v : α)
    (h : ∀ s ∈ stages, ∀ x, ∃ y, s x = .ok y) : ∃ y, pipeRun stages v = .ok y := by
  induction stages generalizing v with
  | nil => exact ⟨v, rfl⟩
  | cons s l ih =>
    obtain ⟨y, hy⟩ := h s (List.mem_cons_self s l) v
    simp only [pipeRun, hy]
    exact ih y fun t ht x => h t (List.mem_cons_of_mem s ht) x

/-- C1: the pipe combinators run their stages in list order against the
threaded record; when every stage succeeds the run returns success, and
when a stage fails after a succeeding prefix the run returns that stage's
error, with a result independent of the stages after the failing one. -/
theorem claim_pipe_short_circuit {α ε : Type}
    (stages pre post post2 : List (α → Except ε α)) (f : α → Except ε α)
    (v v2 : α) (e : ε) :
    ((∀ s ∈ stages, ∀ x, ∃ y, s x = .ok y) →
      (∃ y, PipeScanner.Scan stages v = .ok y) ∧
      (∃ y, PipePrinter.Print stages v = .ok y)) ∧
    (PipeScanner.Scan pre v = .ok v2 → f v2 = .error e →
      PipeScanner.Scan (pre ++ f :: post) v = .error e ∧
      PipeScanner.Scan (pre ++ f :: post) v = PipeScanner.Scan (pre ++ f :: post2) v ∧
      PipePrinter.Print (pre ++ f :: post) v = .error e ∧
      PipePrinter.Print (pre ++ f :: post) v = PipePrinter.Print (pre ++ f :: post2) v) := by
  constructor
  · intro hall
    exact ⟨pipeRun_all_ok stages v hall, pipeRun_all_ok stages v hall⟩
  · intro hpre hf
    have herr : ∀ tail : List (α → Except ε α), pipeRun (pre ++ f :: tail) v = .error e := by
      intro tail
      rw [pipeRun_append_ok pre (f :: tail) v v2 hpre]
      simp only [pipeRun, hf]
    refine ⟨herr post, ?_, herr post, ?_⟩
    · show pipeRun (pre ++ f :: post) v = pipeRun (pre ++ f :: post2) v
      rw [herr post, herr post2]
    · show pipeRun (pre ++ f :: post) v = pipeRun (pre ++ f :: post2) v
      rw [herr post, herr post2]

/-- Witness for C1: a succeeding increment stage, then a failing stage; the
pipe returns the failure and ignores the trailing stage. -/
theorem claim_pipe_short_circuit_witness :
    ((∃ y, PipeScanner.Scan [incStage] 0 = .ok y) ∧
      (∃ y, PipePrinter.Print [incStage] 0 = .ok y)) ∧
    (PipeScanner.Scan ([incStage] ++ boomStage :: [incStage]) 0 = .error "boom" ∧
      PipeScanner.Scan ([incStage] ++ boomStage :: [incStage]) 0 =
        PipeScanner.Scan ([incStage] ++ boomStage :: []) 0 ∧
      PipePrinter.Print ([incStage] ++ boomStage :: [incStage]) 0 = .error "boom" ∧
      PipePrinter.Print ([incStage] ++ boomStage :: [incStage]) 0 =
        PipePrinter.Print ([incStage] ++ boomStage :: []) 0) := by
  have h := claim_pipe_short_circuit [incStage] [incStage] [incStage] [] boomStage 0 1 "boom"
  refine ⟨h.1 ?_, h.2 rfl rfl⟩
  intro s hs x
  rw [List.mem_singleton] at hs
  subst hs
  exact ⟨x + 1, rfl⟩

/-- Step of `decode` on an absent key: the field is left untouched and the
run continues. -/
theorem decode_cons_absent {ρ α : Type} (get : String → Option ρ)
    (conv : FieldDesc → ρ → Except String α) (d : FieldDesc) (l : List FieldDesc)
    (r : Rec α) (hg : get d.sourceKey = none) :
    decode get conv (d :: l) r = decode get conv l r := by
  simp [decode, hg]

/-- Step of `decode` on a failing conversion: the run stops with an error
naming the field, the key and the cause, keeping the record as reached. -/
theorem decode_cons_error {ρ α : Type} (get : String → Option ρ)
    (conv : FieldDesc → ρ → Except String α) (d : FieldDesc) (l : List FieldDesc)
    (r : Rec α) (raw : ρ) (cause : String)
    (hg : get d.sourceKey = some raw) (hc : conv d raw = .error cause) :
    decode get conv (d :: l) r = (some ⟨d.name, d.sourceKey, cause⟩, r) := by
  simp [decode, hg, hc]

/-- Step of `decode` on a succeeding conversion: the value is assigned and
the run continues. -/
theorem decode_cons_ok {ρ α : Type} (get : String → Option ρ)
    (conv : FieldDesc → ρ → Except String α) (d : FieldDesc) (l : List FieldDesc)
    (r : Rec α) (raw : ρ) (val : α)
    (hg : get d.sourceKey = some raw) (hc : conv d raw = .ok val) :
    decode get conv (d :: l) r = decode get conv l (recAssign r d.name val) := by
  simp [decode, hg, hc]

/-- Decoding an appended plan first decodes the prefix; when the prefix
succeeds, decoding continues on the rest from the reached record. -/
theorem decode_append_ok {ρ α : Type} (get : String → Option ρ)
    (conv : FieldDesc → ρ → Except String α) (pre rest : List FieldDesc)
    (r r1 : Rec α) (h : decode get conv pre r = (none, r1)) :
    decode get conv (pre ++ rest) r = decode get conv rest r1 := by
  induction pre generalizing r with
  | nil =>
    simp only [decode, Prod.mk.injEq] at h
    rw [List.nil_append, h.2]
  | cons d l ih =>
    rw [List.cons_append]
    cases hg : get d.sourceKey with
    | none =>
      rw [decode_cons_absent get conv d l r hg] at h
      rw [decode_cons_absent get conv d (l ++ rest) r hg]
      exact ih r h
    | some raw =>
      cases hc : conv d raw with
      | error cause =>
        rw [decode_cons_error get conv d l r raw cause hg hc] at h
        simp at h
      | ok val =>
        rw [decode_cons_ok get conv d l r raw val hg hc] at h
        rw [decode_cons_ok get conv d (l ++ rest) r raw val hg hc]
        exact ih (recAssign r d.name val) h

/-- C4: when a field's raw value fails conversion after a succeeding
prefix of the plan, `decode` returns an error carrying the field name, the
source key and the underlying cause, the returned record is exactly the
record reached after the prefix (no rollback), and the result does not
depend on the fields after the failing one. -/
theorem claim_decode_fail_fast {ρ α : Type} (get : String → Option ρ)
    (conv : FieldDesc → ρ → Except String α) (pre post post2 : List FieldDesc)
    (d : FieldDesc) (r r1 : Rec α) (raw : ρ) (cause : String)
    (hpre : decode get conv pre r = (none, r1))
    (hget : get d.sourceKey = some raw)
    (hconv : conv d raw = .error cause) :
    decode get conv (pre ++ d :: post) r =
      (some { fieldName := d.name, sourceKey := d.sourceKey, cause := cause }, r1) ∧
    decode get conv (pre ++ d :: post) r = decode get conv (pre ++ d :: post2) r := by
  have herr : ∀ tail : List FieldDesc,
      decode get conv (pre ++ d :: tail) r =
        (some { fieldName := d.name, sourceKey := d.sourceKey, cause := cause }, r1) := by
    intro tail
    rw [decode_append_ok get conv pre (d :: tail) r r1 hpre]
    simp only [decode, hget, hconv]
  exact ⟨herr post, by rw [herr post, herr post2]⟩

/-- Witness for C4: with source key `q` holding the unconvertible raw value
`bad`, decoding the plan `[A from p, B from q, C from p]` fails on `B`,
names field `B`, key `q` and cause `boom`, and keeps the assignment already
made to `A`. -/
theorem claim_decode_fail_fast_witness :
    decode getEx convEx
        ([{ name := "A", sourceKey := "p" }] ++
          { name := "B", sourceKey := "q" } :: [{ name := "C", sourceKey := "p" }]) zeroRec =
      (some { fieldName := "B", sourceKey := "q", cause := "boom" },
        recAssign zeroRec "A" "v") ∧
    decode getEx convEx
        ([{ name := "A", sourceKey := "p" }] ++
          { name := "B", sourceKey := "q" } :: [{ name := "C", sourceKey := "p" }]) zeroRec =
      decode getEx convEx
        ([{ name := "A", sourceKey := "p" }] ++
          { name := "B", sourceKey := "q" } :: []) zeroRec :=
  claim_decode_fail_fast getEx convEx
    [{ name := "A", sourceKey := "p" }] [{ name := "C", sourceKey := "p" }] []
    { name := "B", sourceKey := "q" } zeroRec (recAssign zeroRec "A" "v") "bad" "boom"
    rfl rfl rfl

/-- A descriptor of a built plan comes from a field whose tag for the
namespace is present and is not the skip sentinel, and shares its name. -/
theorem buildPlan_mem (fields : List RecField) (ns : String) (d : FieldDesc)
    (hd : d ∈ buildPlan fields ns) :
    ∃ g ∈ fields, g.name = d.name ∧
      tagLookup g.tags ns = some d.sourceKey ∧ d.sourceKey ≠ skipSentinel := by
  unfold buildPlan at hd
  rw [List.mem_filterMap] at hd
  obtain ⟨g, hg, hgd⟩ := hd
  refine ⟨g, hg, ?_⟩
  cases ht : tagLookup g.tags ns with
  | none =>
    rw [ht] at hgd
    simp at hgd
  | some k =>
    rw [ht] at hgd
    by_cases hk : k = skipSentinel
    · rw [hk] at hgd
      simp at hgd
    · simp [hk] at hgd
      subst hgd
      exact ⟨rfl, rfl, hk⟩

/-- Decoding a plan none of whose descriptors bears a given field name
leaves that field of the record unchanged. -/
theorem decode_frame {ρ α : Type} (get : String → Option ρ)
    (conv : FieldDesc → ρ → Except String α) (plan : List FieldDesc)
    (r : Rec α) (fname : String) (h : ∀ d ∈ plan, d.name ≠ fname) :
    (decode get conv plan r).2 fname = r fname := by
  induction plan generalizing r with
  | nil => rfl
  | cons d l ih =>
    have hd : d.name ≠ fname := h d (List.mem_cons_self d l)
    have hl : ∀ d2 ∈ l, d2.name ≠ fname := fun d2 h2 => h d2 (List.mem_cons_of_mem d h2)
    cases hg : get d.sourceKey with
    | none =>
      rw [decode_cons_absent get conv d l r hg]
      exact ih r hl
    | some raw =>
      cases hc : conv d raw with
      | error cause =>
        rw [decode_cons_error get conv d l r raw cause hg hc]
      | ok val =>
        rw [decode_cons_ok get conv d l r raw val hg hc]
        rw [ih (recAssign r d.name val) hl]
        unfold recAssign
        rw [if_neg fun hf => hd hf.symm]

/-- C5: if every field bearing a given name has its tag for the namespace
absent or equal to the skip sentinel, then decoding through the built plan
leaves that field of the record unchanged (at its zero value when it
started there), and encoding never calls the sink for a descriptor of that
name. -/
theorem claim_skip_frame {ρ α : Type} (fields : List RecField) (ns fname : String)
    (hskip : ∀ g ∈ fields, g.name = fname →
      tagLookup g.tags ns = none ∨ tagLookup g.tags ns = some skipSentinel) :
    (∀ (get : String → Option ρ) (conv : FieldDesc → ρ → Except String α) (r : Rec α),
      (decode get conv (buildPlan fields ns) r).2 fname = r fname) ∧
    (∀ (r : Rec α) (call : String × α × FieldDesc),
      call ∈ encodeCalls (buildPlan fields ns) r → call.2.2.name ≠ fname) := by
  have hname : ∀ d ∈ buildPlan fields ns, d.name ≠ fname := by
    intro d hd hdn
    obtain ⟨g, hg, hgname, hgtag, hgskip⟩ := buildPlan_mem fields ns d hd
    cases hskip g hg (hgname.trans hdn) with
    | inl h0 => rw [h0] at hgtag; cases hgtag
    | inr h1 =>
      rw [h1] at hgtag
      exact hgskip (Option.some.inj hgtag).symm
  constructor
  · intro get conv r
    exact decode_frame get conv (buildPlan fields ns) r fname hname
  · intro r call hcall
    unfold encodeCalls at hcall
    rw [List.mem_map] at hcall
    obtain ⟨d, hd, hdc⟩ := hcall
    rw [← hdc]
    exact hname d hd

/-- Witness for C5: in a record whose field `B` is untagged for the query
namespace (and `C` bears the skip sentinel), decoding leaves `B` at its
zero value and the only encode call is for field `A`. -/
theorem claim_skip_frame_witness :
    (decode getEx convEx (buildPlan fieldsEx "query") zeroRec).2 "B" = zeroRec "B" ∧
    ("a", zeroRec "A", ({ name := "A", sourceKey := "a" } : FieldDesc)).2.2.name ≠ "B" := by
  have h := claim_skip_frame (ρ := String) (α := String) fieldsEx "query" "B" (by decide)
  exact ⟨h.1 getEx convEx zeroRec,
    h.2 zeroRec ("a", zeroRec "A", { name := "A", sourceKey := "a" }) (by decide)⟩

end HttpPayload
